import Mathlib

/-!
Verification of the wpm typing-trainer core (src/wpm/game.py) against its
specification.  Python strings are modelled as `List Char`; Python ints as
`Int` where the program can drive them negative (the session position) and
as `Nat` where it cannot; string indexing including Python's negative-index
semantics as `py_index`; `time.time()` values as `Nat` supplied by the
environment; and Python float arithmetic in the metric accessors as exact
rational arithmetic.
Raised exceptions are modelled with `Except`: a `ValueError` from
`str.rindex` makes `word_wrap` return `none`, and `handle_key` returns
`Except Exc Game` where an `error` value is a raised exception
(`KeyboardInterrupt`, `TypeError`, `IndexError`).
-/

namespace Wpm

/-! ## Text layout (game.py lines 25-61) -/

/-- Python str.rindex(" ") on a string modelled as a list of characters:
the highest index holding a space.  Python raises ValueError when there is
no space; that is modelled by `none`. -/
def rindexSpace : List Char → Option Nat
  | [] => none
  | c :: rest =>
    match rindexSpace rest with
    | some i => some (i + 1)
    | none => if c = ' ' then some 0 else none

/-- word_wrap (game.py lines 25-41).  Returns lengths of lines that can be
printed without wrapping.  The loop keeps splitting off the text up to the
last space inside text[:width+1] while len(text) > width.  Python's
str.rindex raises ValueError when the window holds no space (so the
source's `if end == -1` fallback branch is dead code: rindex never returns
-1); the raised exception is modelled by `none`. -/
def word_wrap (text : List Char) (width : Nat) : Option (List Nat) :=
  if _h : text.length > width then
    match rindexSpace (text.take (width + 1)) with
    | none => none
    | some e =>
      match word_wrap (text.drop (e + 1)) width with
      | none => none
      | some rest => some (e :: rest)
  else if text.isEmpty then some []
  else some [text.length]
termination_by text.length
decreasing_by
  simp only [List.length_drop]
  omega

/-- screen_coords (game.py lines 43-61).  Translates a quote offset into
screen coordinates (x, y).  The Python for-loop subtracts length+1 per
line until the position fits in the current line; if the loop finishes
without a break, y_position is the index of the last line (or 0 for an
empty list).  position is a Python int, so it is modelled as `Int`. -/
def screen_coords : List Nat → Int → Int × Nat
  | [], position => (position, 0)
  | [l], position =>
    if position ≤ (l : Int) then (position, 0) else (position - ((l : Int) + 1), 0)
  | l :: rest, position =>
    if position ≤ (l : Int) then (position, 0)
    else
      let r := screen_coords rest (position - ((l : Int) + 1))
      (r.1, r.2 + 1)

/-! ## Data model (game.py lines 327-348) -/

/-- A quote, as supplied by the external quote source.  Only the text body
matters to the session engine; author, title and id are opaque to it. -/
structure Quote where
  text : List Char
deriving DecidableEq

/-- The mutable state of Game (game.py lines 329-348) that the keystroke
handler reads and writes: position, incorrect, total_incorrect, start,
stop, the edit buffer _edit, the current quote and tab_spaces.  position
is a signed Python int (backspaces can drive it below zero), so it is
`Int`; incorrect and total_incorrect are decremented only when nonzero
and so never leave `Nat`.  Screen and statistics objects are external
collaborators and carry no session state. -/
structure Game where
  quote : Quote
  position : Int
  incorrect : Nat
  total_incorrect : Nat
  start : Option Nat
  stop : Option Nat
  edit : List Char
  tab_spaces : Option Nat
deriving DecidableEq

/-- Fresh session state as set up by Game.__init__ (lines 336-346), with
the quote chosen and tab_spaces as set by set_tab_spaces (line 360). -/
def init (q : Quote) (tab : Option Nat) : Game :=
  { quote := q, position := 0, incorrect := 0, total_incorrect := 0,
    start := none, stop := none, edit := [], tab_spaces := tab }

/-- External inputs of a handle_key call: the clock value used for
time.time(), and the quotes the external iterator would deliver for
quotes.next() and quotes.previous(). -/
structure Env where
  now : Nat
  nextQuote : Quote
  prevQuote : Quote

/-- Exceptions that game.py can raise out of handle_key. -/
inductive Exc where
  | keyboardInterrupt
  | typeError
  | indexError
deriving DecidableEq

/-- A key as delivered to handle_key: Python passes either a string
(ordinary characters and the named KEY_* strings) or, if a caller were to
pass one, an int such as curses.KEY_ENTER. -/
inductive PyKey where
  | str (s : List Char)
  | int (n : Nat)
deriving DecidableEq

def KEY_RESIZE : List Char := "KEY_RESIZE".toList
def KEY_LEFT : List Char := "KEY_LEFT".toList
def KEY_RIGHT : List Char := "KEY_RIGHT".toList
def KEY_BACKSPACE : List Char := "KEY_BACKSPACE".toList

/-- curses.KEY_ENTER (octal 0527). -/
def KEY_ENTER : Nat := 343

def ESC : Char := Char.ofNat 27
def BS : Char := Char.ofNat 8
def DEL : Char := Char.ofNat 127

/-! ## Key classification (game.py lines 154-168) -/

/-- Screen.is_escape (lines 154-159): a string key is escape iff it has
length one and that character is ESC.  len() of an int raises TypeError. -/
def is_escape : PyKey → Except Exc Bool
  | PyKey.str [c] => pure (decide (c = ESC))
  | PyKey.str _ => pure false
  | PyKey.int _ => throw Exc.typeError

/-- Screen.is_backspace (lines 161-168): a string longer than one
character is a backspace iff it is "KEY_BACKSPACE"; a one-character string
iff its character is BS or DEL.  ord("") and len() of an int raise
TypeError. -/
def is_backspace : PyKey → Except Exc Bool
  | PyKey.str [] => throw Exc.typeError
  | PyKey.str [c] => pure (decide (c = BS ∨ c = DEL))
  | PyKey.str s => pure (decide (s = KEY_BACKSPACE))
  | PyKey.int _ => throw Exc.typeError

/-! ## Session transitions (game.py lines 450-545) -/

/-- Game.reset (lines 450-466): clear all counters, buffer and
timestamps; a nonzero direction additionally swaps in the next or
previous quote from the external iterator. -/
def reset (env : Env) (g : Game) (direction : Int) : Game :=
  let g :=
    { g with start := none, stop := none, position := 0, incorrect := 0,
             total_incorrect := 0, edit := [] }
  if direction ≠ 0 then
    if direction > 0 then { g with quote := env.nextQuote }
    else { g with quote := env.prevQuote }
  else g

/-- Backspace handling (lines 494-501). -/
def backspace_step (g : Game) : Game :=
  if g.incorrect ≠ 0 then
    { g with incorrect := g.incorrect - 1, edit := g.edit.dropLast }
  else if g.edit ≠ [] then
    { g with position := g.position - 1, edit := g.edit.dropLast }
  else g

/-- Key normalization (lines 522-525): the int curses.KEY_ENTER becomes
"\n"; otherwise a tab with tab_spaces configured becomes that many
spaces. -/
def normalize_key (tab_spaces : Option Nat) (key : PyKey) : PyKey :=
  if key = PyKey.int KEY_ENTER then PyKey.str ['\n']
  else
    match key, tab_spaces with
    | PyKey.str s, some n =>
      if s = ['\t'] then PyKey.str (List.replicate n ' ') else key
    | _, _ => key

/-- Completion check (lines 537-539): on reaching the end of the quote
mark the race finished (mark_finished, lines 364-372, stores
stop := time.time(); its submission to the external statistics store
carries no session state). -/
def finish_check (env : Env) (g : Game) : Game :=
  if g.position = (g.quote.text.length : Int) then { g with stop := some env.now }
  else g

/-- Correct-keystroke branch (lines 528-539), where the normalized key
equals the one-character string quote.text[position] with character c:
advance position, clear the edit buffer on a finished word or append the
character, then run the completion check. -/
def correct_step (env : Env) (g : Game) (c : Char) : Game :=
  finish_check env
    (if c = ' ' ∨ c = '\n' then
      { g with position := g.position + 1, edit := [] }
     else
      { g with position := g.position + 1, edit := g.edit ++ [c] })

/-- Wrong-keystroke branch (lines 540-545): while the quote is not fully
covered, count the error and append the key (newline shown as space) to
the edit buffer.  Appending an int key to the string buffer would raise
TypeError in Python (unreachable: int keys already raise inside
is_escape); the pure model does not keep the partial increments that
Python's mutation would leave behind on that dead path. -/
def mismatch_step (g : Game) (key : PyKey) : Except Exc Game :=
  if (g.incorrect : Int) + g.position < (g.quote.text.length : Int) then
    match (if key = PyKey.str ['\n'] then PyKey.str [' '] else key) with
    | PyKey.str s =>
      pure { g with incorrect := g.incorrect + 1,
                    total_incorrect := g.total_incorrect + 1,
                    edit := g.edit ++ s }
    | PyKey.int _ => throw Exc.typeError
  else pure g

/-- Python string indexing s[p]: a nonnegative index reads within
[0, len), a negative index wraps once from the end (s[len + p] for
-len <= p < 0), anything else raises IndexError (modelled by `none`). -/
def py_index (s : List Char) (p : Int) : Option Char :=
  if 0 ≤ p then s.get? p.toNat
  else if 0 ≤ p + (s.length : Int) then s.get? (p + (s.length : Int)).toNat
  else none

/-- Correctness comparison (lines 527-545): Python evaluates
`self.incorrect == 0 and self.quote.text[self.position] == key` with
short-circuiting, so the quote is only indexed (possibly raising
IndexError) when incorrect is zero. -/
def check_key (env : Env) (g : Game) (key : PyKey) : Except Exc Game :=
  if g.incorrect = 0 then
    match py_index g.quote.text g.position with
    | none => throw Exc.indexError
    | some c =>
      if key = PyKey.str [c] then pure (correct_step env g c)
      else mismatch_step g key
  else mismatch_step g key

/-- Try-again handling (lines 503-516): a finished race is reset for a
new attempt at the same quote (the redraw is external). -/
def try_again_reset (env : Env) (g : Game) : Game :=
  if g.stop ≠ none then reset env g 0 else g

/-- Clock start (lines 518-520): recording starts on the first ordinary
key press. -/
def start_clock (env : Env) (g : Game) : Game :=
  if g.start = none then { g with start := some env.now } else g

/-- Ordinary-keystroke tail of handle_key (lines 503-545): a finished
race is reset for a new attempt, typing starts the clock, the key is
normalized, then compared. -/
def ordinary_step (env : Env) (g : Game) (key : PyKey) : Except Exc Game :=
  check_key env (start_clock env (try_again_reset env g))
    (normalize_key (start_clock env (try_again_reset env g)).tab_spaces key)

/-- Lines 490-545 of handle_key, reached when browse-mode handling fell
through: escape cancels the round, backspace edits, anything else is an
ordinary keystroke. -/
def handle_key_rest (env : Env) (g : Game) (key : PyKey) : Except Exc Game :=
  (is_escape key).bind fun esc =>
    if esc then pure (reset env g 0)
    else
      (is_backspace key).bind fun bs =>
        if bs then pure (backspace_step g)
        else ordinary_step env g key

/-- Game.handle_key (lines 474-545).  KEY_RESIZE only redraws; in browse
mode (not started, or finished) space and the arrow keys navigate quotes
and escape raises KeyboardInterrupt to exit the program; all remaining
handling is handle_key_rest. -/
def handle_key (env : Env) (g : Game) (key : PyKey) : Except Exc Game :=
  if key = PyKey.str KEY_RESIZE then pure g
  else if g.start = none ∨ (g.start ≠ none ∧ g.stop ≠ none) then
    if key = PyKey.str [' '] ∨ key = PyKey.str KEY_LEFT ∨ key = PyKey.str KEY_RIGHT then
      pure (reset env g (if key = PyKey.str KEY_LEFT then -1 else 1))
    else
      (is_escape key).bind fun esc =>
        if esc then throw Exc.keyboardInterrupt
        else handle_key_rest env g key
  else handle_key_rest env g key

/-- Feeding a whole sequence of keystrokes to handle_key, stopping at the
first raised exception. -/
def run_keys (env : Env) (g : Game) : List PyKey → Except Exc Game
  | [] => pure g
  | k :: ks => (handle_key env g k).bind fun g1 => run_keys env g1 ks

/-! ## Metrics (game.py lines 402-434), with float arithmetic modelled
as exact rational arithmetic -/

/-- Game.wpm (lines 402-406). -/
def wpm (g : Game) (elapsed : Rat) : Rat :=
  if g.start = none then 0
  else min ((60 * (g.position : Rat) / 5) / elapsed) 999

/-- Game.cps (lines 408-412). -/
def cps (g : Game) (elapsed : Rat) : Rat :=
  if g.start = none then 0
  else min ((g.position : Rat) / elapsed) 99

/-- Game.accuracy (lines 427-434). -/
def accuracy (g : Game) : Rat :=
  if g.start = none then 0
  else (g.quote.text.length : Rat) / ((g.quote.text.length : Rat) + (g.total_incorrect : Rat))

/-! ## Lemmas about the text layout -/

lemma rindexSpace_lt_length {s : List Char} {e : Nat} (h : rindexSpace s = some e) :
    e < s.length := by
  induction s generalizing e with
  | nil => simp [rindexSpace] at h
  | cons c rest ih =>
    rw [rindexSpace] at h
    cases hr : rindexSpace rest with
    | some i =>
      rw [hr] at h
      simp at h
      have hi := ih hr
      simp only [List.length_cons]
      subst h
      omega
    | none =>
      rw [hr] at h
      by_cases hc : c = ' '
      · simp [hc] at h
        simp only [List.length_cons]
        omega
      · simp [hc] at h

lemma word_wrap_nil (width : Nat) : word_wrap ([] : List Char) width = some [] := by
  rw [word_wrap]
  simp

lemma word_wrap_le (text : List Char) (width : Nat) (h1 : text ≠ [])
    (h2 : text.length ≤ width) : word_wrap text width = some [text.length] := by
  rw [word_wrap]
  rw [dif_neg (by omega)]
  simp [h1]

lemma word_wrap_sum_aux : ∀ (n : Nat) (text : List Char) (width : Nat) (L : List Nat),
    text.length ≤ n → word_wrap text width = some L → text ≠ [] →
    L ≠ [] ∧ (text.length + 1 = L.sum + L.length ∨ text.length = L.sum + L.length) := by
  intro n
  induction n with
  | zero =>
    intro text width L hlen _ hne
    have : text = [] := List.length_eq_zero.mp (by omega)
    exact absurd this hne
  | succ n ih =>
    intro text width L hlen hww hne
    by_cases hw : text.length > width
    · rw [word_wrap, dif_pos hw] at hww
      split at hww
      · simp at hww
      · rename_i e hr
        have he : e < width + 1 := by
          have h1 := rindexSpace_lt_length hr
          rw [List.length_take] at h1
          omega
        split at hww
        · simp at hww
        · rename_i rest hrec
          simp only [Option.some.injEq] at hww
          subst hww
          have hdl : (text.drop (e + 1)).length = text.length - (e + 1) :=
            List.length_drop _ _
          by_cases hd : text.drop (e + 1) = []
          · rw [hd, word_wrap_nil] at hrec
            simp only [Option.some.injEq] at hrec
            subst hrec
            have : text.length - (e + 1) = 0 := by rw [← hdl, hd]; rfl
            refine ⟨by simp, Or.inr ?_⟩
            simp only [List.sum_cons, List.sum_nil, List.length_cons, List.length_nil]
            omega
          · have hdlen : (text.drop (e + 1)).length ≤ n := by omega
            obtain ⟨hrne, hsum⟩ := ih (text.drop (e + 1)) width rest hdlen hrec hd
            refine ⟨by simp, ?_⟩
            rw [hdl] at hsum
            rcases hsum with h | h
            · left
              simp only [List.sum_cons, List.length_cons]
              omega
            · right
              simp only [List.sum_cons, List.length_cons]
              omega
    · rw [word_wrap_le text width hne (by omega)] at hww
      simp only [Option.some.injEq] at hww
      subst hww
      refine ⟨by simp, Or.inl ?_⟩
      simp

lemma word_wrap_sum {text : List Char} {width : Nat} {L : List Nat}
    (hww : word_wrap text width = some L) (hne : text ≠ []) :
    L ≠ [] ∧ (text.length + 1 = L.sum + L.length ∨ text.length = L.sum + L.length) :=
  word_wrap_sum_aux text.length text width L le_rfl hww hne

lemma screen_coords_nil (pos : Int) : screen_coords [] pos = (pos, 0) := rfl

lemma screen_coords_single (l : Nat) (pos : Int) :
    screen_coords [l] pos =
      if pos ≤ (l : Int) then (pos, 0) else (pos - ((l : Int) + 1), 0) := rfl

lemma screen_coords_cons2 (l l2 : Nat) (rest : List Nat) (pos : Int) :
    screen_coords (l :: l2 :: rest) pos =
      if pos ≤ (l : Int) then (pos, 0)
      else
        ((screen_coords (l2 :: rest) (pos - ((l : Int) + 1))).1,
         (screen_coords (l2 :: rest) (pos - ((l : Int) + 1))).2 + 1) := rfl

lemma screen_coords_bounds : ∀ (L : List Nat) (pos : Int), L ≠ [] → 0 ≤ pos →
    pos ≤ (L.sum : Int) + (L.length : Int) →
    (screen_coords L pos).2 < L.length ∧ 0 ≤ (screen_coords L pos).1 ∧
      (screen_coords L pos).1 ≤ (L.getD (screen_coords L pos).2 0 : Int) := by
  intro L
  induction L with
  | nil => intro pos h; exact absurd rfl h
  | cons l rest ih =>
    intro pos _ h0 hub
    cases rest with
    | nil =>
      rw [screen_coords_single]
      by_cases hp : pos ≤ (l : Int)
      · rw [if_pos hp]
        exact ⟨by simp, h0, by simpa using hp⟩
      · rw [if_neg hp]
        simp only [List.sum_cons, List.sum_nil, List.length_cons, List.length_nil] at hub
        push_cast at hub
        refine ⟨by simp, by omega, ?_⟩
        simp only [List.getD_cons_zero]
        omega
    | cons l2 rest2 =>
      rw [screen_coords_cons2]
      by_cases hp : pos ≤ (l : Int)
      · rw [if_pos hp]
        exact ⟨by simp, h0, by simpa using hp⟩
      · rw [if_neg hp]
        simp only [List.sum_cons, List.length_cons] at hub
        push_cast at hub
        have hrec := ih (pos - ((l : Int) + 1)) (by simp) (by omega)
          (by simp only [List.sum_cons, List.length_cons]; push_cast; omega)
        have h1 := hrec.1
        simp only [List.length_cons] at h1
        refine ⟨?_, hrec.2.1, ?_⟩
        · simp only [List.length_cons]
          omega
        · simpa only [List.getD_cons_succ] using hrec.2.2

/-! ## Claims about the text layout -/

/-- C1: word_wrap on a window with no breakable space.  The specification
demands the remaining text be returned as one overflowing line; the source
comment and the dead `if end == -1` branch (lines 31-33) show the same
intent, but str.rindex (unlike str.rfind) raises ValueError, so word_wrap
raises instead of returning.  The theorem evaluates the embedded code on
that path: the spec-mandated graceful fallback is unreachable. -/
theorem C1_wrap_no_space_raises (text : List Char) (width : Nat)
    (hlen : width < text.length)
    (hns : rindexSpace (text.take (width + 1)) = none) :
    word_wrap text width = none := by
  rw [word_wrap, dif_pos hlen, hns]

/-- Witness for C1 at the failing input text="abcdef", width=3. -/
theorem C1_wrap_no_space_raises_witness :
    (3 < ("abcdef".toList).length ∧ rindexSpace (("abcdef".toList).take 4) = none) ∧
    word_wrap "abcdef".toList 3 = none :=
  ⟨⟨by decide, by decide⟩,
   C1_wrap_no_space_raises "abcdef".toList 3 (by decide) (by decide)⟩

/-- C3, counterexample: on text="abc " (length 4) with width=3, the last
space of the window is the final character, so its separator is consumed
by the single produced line: the lengths sum with one separator per line
except the last to 3, not 4.  Moreover for empty text the result is [],
not [len(text)] = [0], so the single-line edge case only holds for
nonempty text. -/
theorem C3_counterexample :
    word_wrap "abc ".toList 3 = some [3] ∧
    List.sum [3] + ([3].length - 1) ≠ ("abc ".toList).length ∧
    word_wrap ([] : List Char) 3 ≠ some [List.length ([] : List Char)] := by
  refine ⟨by simp [word_wrap, rindexSpace], by decide, ?_⟩
  rw [word_wrap_nil]
  decide

/-- C3, amended: when every wrap step finds a space, the line lengths sum
with one consumed separator per line except POSSIBLY the last to the text
length (the trailing separator may or may not have been consumed); empty
text yields []; nonempty text of length at most width yields a single
line of full length. -/
theorem C3_wrap_reconstruction (text : List Char) (width : Nat) (L : List Nat)
    (_hw : 0 < width) (hww : word_wrap text width = some L) :
    (text = [] → L = []) ∧
    (text ≠ [] → L ≠ [] ∧
      (text.length = L.sum + (L.length - 1) ∨ text.length = L.sum + L.length)) ∧
    (text ≠ [] → text.length ≤ width → L = [text.length]) := by
  refine ⟨?_, ?_, ?_⟩
  · intro h
    subst h
    rw [word_wrap_nil] at hww
    exact (Option.some.inj hww).symm
  · intro hne
    obtain ⟨h1, h2⟩ := word_wrap_sum hww hne
    have hL : 0 < L.length := List.length_pos.mpr h1
    refine ⟨h1, ?_⟩
    rcases h2 with h | h
    · left; omega
    · right; omega
  · intro hne hle
    rw [word_wrap_le text width hne hle] at hww
    exact (Option.some.inj hww).symm

/-- Witness for C3 on the quote "go go" with width 80. -/
theorem C3_wrap_reconstruction_witness :
    (0 < 80 ∧ word_wrap "go go".toList 80 = some [5]) ∧
    (("go go".toList).length = [5].sum + ([5].length - 1) ∨
     ("go go".toList).length = [5].sum + [5].length) := by
  have h2 : word_wrap "go go".toList 80 = some [5] := by
    simp [word_wrap, rindexSpace]
  have h3 := (C3_wrap_reconstruction "go go".toList 80 [5] (by decide) h2).2.1 (by decide)
  exact ⟨⟨by decide, h2⟩, h3.2⟩

/-- C4, counterexample: for the empty text every width and offset 0 are
admitted by the claim, but word_wrap yields no lines at all, and the
returned row 0 is not within [0, number of lines) = [0, 0). -/
theorem C4_counterexample :
    word_wrap ([] : List Char) 5 = some [] ∧
    screen_coords ([] : List Nat) 0 = (0, 0) ∧
    ¬ ((screen_coords ([] : List Nat) 0).2 < ([] : List Nat).length) :=
  ⟨word_wrap_nil 5, rfl, by decide⟩

/-- C4, amended: for every NONEMPTY text on which word_wrap succeeds and
every offset up to the text length, screen_coords lands on a row within
[0, number of lines) and a column within [0, that line's length]. -/
theorem C4_coords_in_bounds (text : List Char) (width : Nat) (L : List Nat) (o : Nat)
    (_hw : 0 < width) (hww : word_wrap text width = some L) (hne : text ≠ [])
    (ho : o ≤ text.length) :
    (screen_coords L (o : Int)).2 < L.length ∧
    0 ≤ (screen_coords L (o : Int)).1 ∧
    (screen_coords L (o : Int)).1 ≤ (L.getD (screen_coords L (o : Int)).2 0 : Int) := by
  obtain ⟨hLne, hsum⟩ := word_wrap_sum hww hne
  apply screen_coords_bounds L (o : Int) hLne (by positivity)
  have hb : o ≤ L.sum + L.length := by omega
  exact_mod_cast hb

/-- Witness for C4 on the quote "go go" with width 80 at the
end-of-quote offset 5. -/
theorem C4_coords_in_bounds_witness :
    (0 < 80 ∧ word_wrap "go go".toList 80 = some [5] ∧ "go go".toList ≠ [] ∧
      5 ≤ ("go go".toList).length) ∧
    (screen_coords [5] ((5 : Nat) : Int)).2 < [5].length ∧
    0 ≤ (screen_coords [5] ((5 : Nat) : Int)).1 ∧
    (screen_coords [5] ((5 : Nat) : Int)).1 ≤
      ([5].getD (screen_coords [5] ((5 : Nat) : Int)).2 0 : Int) := by
  have h2 : word_wrap "go go".toList 80 = some [5] := by
    simp [word_wrap, rindexSpace]
  exact ⟨⟨by decide, h2, by decide, by decide⟩,
    C4_coords_in_bounds "go go".toList 80 [5] 5 (by decide) h2 (by decide) (by decide)⟩

/-! ## Session invariant and step lemmas -/

/-- The session invariant maintained by handle_key: the covered prefix
plus the pending incorrect run never exceed the quote, a finished race
has no pending incorrect run, and while the race is not finished the
position is strictly inside the (nonempty) quote text. -/
def GInv (g : Game) : Prop :=
  g.quote.text ≠ [] ∧
  g.position + (g.incorrect : Int) ≤ (g.quote.text.length : Int) ∧
  (g.stop ≠ none → g.incorrect = 0) ∧
  (g.stop = none → g.position < (g.quote.text.length : Int))

lemma GInv_of_fresh (g : Game) (hq : g.quote.text ≠ []) (hp : g.position = 0)
    (hi : g.incorrect = 0) (hs : g.stop = none) : GInv g := by
  refine ⟨hq, ?_, ?_, ?_⟩ <;>
    simp [hp, hi, hs, List.length_pos.mpr hq]

lemma GInv_reset (env : Env) (g : Game) (d : Int)
    (h1 : env.nextQuote.text ≠ []) (h2 : env.prevQuote.text ≠ [])
    (hq : g.quote.text ≠ []) : GInv (reset env g d) := by
  unfold reset
  split
  · split
    · exact GInv_of_fresh _ h1 rfl rfl rfl
    · exact GInv_of_fresh _ h2 rfl rfl rfl
  · exact GInv_of_fresh _ hq rfl rfl rfl

lemma reset_stop (env : Env) (g : Game) (d : Int) : (reset env g d).stop = none := by
  unfold reset
  split
  · split <;> rfl
  · rfl

lemma reset_zero (env : Env) (g : Game) :
    reset env g 0 =
      { g with start := none, stop := none, position := 0, incorrect := 0,
               total_incorrect := 0, edit := [] } := rfl

lemma backspace_stop (g : Game) : (backspace_step g).stop = g.stop := by
  unfold backspace_step
  split
  · rfl
  · split <;> rfl

lemma GInv_backspace (g : Game) (hg : GInv g) : GInv (backspace_step g) := by
  obtain ⟨hq, hle, hsi, hsp⟩ := hg
  unfold backspace_step
  split
  · refine ⟨hq, by simp; omega, ?_, ?_⟩
    · intro hs
      simp at hs ⊢
      have := hsi hs
      omega
    · intro hs
      simp at hs ⊢
      have := hsp hs
      omega
  · split
    · refine ⟨hq, by simp; omega, by simpa using hsi, ?_⟩
      intro hs
      simp at hs ⊢
      have := hsp hs
      omega
    · exact ⟨hq, hle, hsi, hsp⟩

lemma handle_key_int (env : Env) (g : Game) (n : Nat) :
    handle_key env g (PyKey.int n) = .error Exc.typeError := by
  unfold handle_key
  rw [if_neg (by simp)]
  split
  · rw [if_neg (by simp)]
    rfl
  · rfl

lemma bind_pure_bool (b : Bool) (f : Bool → Except Exc Game) :
    Except.bind (pure b) f = f b := rfl

lemma handle_key_rest_shape (env : Env) (g : Game) (key : PyKey) :
    handle_key_rest env g key = .error Exc.typeError ∨
    handle_key_rest env g key = .ok (reset env g 0) ∨
    handle_key_rest env g key = .ok (backspace_step g) ∨
    handle_key_rest env g key = ordinary_step env g key := by
  unfold handle_key_rest
  match key with
  | PyKey.int n => left; rfl
  | PyKey.str [] => left; rfl
  | PyKey.str [c] =>
    rw [show is_escape (PyKey.str [c]) = pure (decide (c = ESC)) from rfl, bind_pure_bool]
    by_cases hesc : c = ESC
    · right; left
      rw [if_pos (by simp [hesc])]
      rfl
    · rw [if_neg (by simp [hesc])]
      rw [show is_backspace (PyKey.str [c]) = pure (decide (c = BS ∨ c = DEL)) from rfl,
        bind_pure_bool]
      by_cases hbs : c = BS ∨ c = DEL
      · right; right; left
        rw [if_pos (by simp [hbs])]
        rfl
      · right; right; right
        rw [if_neg (by simp [hbs])]
  | PyKey.str (c1 :: c2 :: s) =>
    rw [show is_escape (PyKey.str (c1 :: c2 :: s)) = pure false from rfl, bind_pure_bool,
      if_neg (by simp)]
    rw [show is_backspace (PyKey.str (c1 :: c2 :: s)) =
          pure (decide (c1 :: c2 :: s = KEY_BACKSPACE)) from rfl, bind_pure_bool]
    by_cases hbs : c1 :: c2 :: s = KEY_BACKSPACE
    · right; right; left
      rw [if_pos (by simp [hbs])]
      rfl
    · right; right; right
      rw [if_neg (by simp [hbs])]

lemma handle_key_shape (env : Env) (g : Game) (key : PyKey) :
    handle_key env g key = .error Exc.typeError ∨
    handle_key env g key = .error Exc.keyboardInterrupt ∨
    handle_key env g key = .ok g ∨
    handle_key env g key = .ok (reset env g 1) ∨
    handle_key env g key = .ok (reset env g (-1)) ∨
    handle_key env g key = .ok (reset env g 0) ∨
    handle_key env g key = .ok (backspace_step g) ∨
    handle_key env g key = ordinary_step env g key := by
  unfold handle_key
  by_cases h1 : key = PyKey.str KEY_RESIZE
  · rw [if_pos h1]
    right; right; left; rfl
  · rw [if_neg h1]
    have hrest := handle_key_rest_shape env g key
    split
    · by_cases h3 : key = PyKey.str [' '] ∨ key = PyKey.str KEY_LEFT ∨ key = PyKey.str KEY_RIGHT
      · rw [if_pos h3]
        by_cases h4 : key = PyKey.str KEY_LEFT
        · rw [if_pos h4]
          right; right; right; right; left; rfl
        · rw [if_neg h4]
          right; right; right; left; rfl
      · rw [if_neg h3]
        match key with
        | PyKey.int n => left; rfl
        | PyKey.str [] =>
          rw [show is_escape (PyKey.str []) = pure false from rfl, bind_pure_bool,
            if_neg (by simp)]
          rcases hrest with h | h | h | h <;> tauto
        | PyKey.str [c] =>
          rw [show is_escape (PyKey.str [c]) = pure (decide (c = ESC)) from rfl,
            bind_pure_bool]
          by_cases hesc : c = ESC
          · right; left
            rw [if_pos (by simp [hesc])]
            rfl
          · rw [if_neg (by simp [hesc])]
            rcases hrest with h | h | h | h <;> tauto
        | PyKey.str (c1 :: c2 :: s) =>
          rw [show is_escape (PyKey.str (c1 :: c2 :: s)) = pure false from rfl,
            bind_pure_bool, if_neg (by simp)]
          rcases hrest with h | h | h | h <;> tauto
    · rcases hrest with h | h | h | h <;> tauto

lemma ok_inj {a b : Game} (h : (pure a : Except Exc Game) = .ok b) : a = b :=
  Except.ok.inj h

lemma GInv_init (q : Quote) (tab : Option Nat) (hq : q.text ≠ []) : GInv (init q tab) :=
  GInv_of_fresh _ hq rfl rfl rfl

lemma GInv_set_start (g : Game) (s : Option Nat) :
    GInv { g with start := s } ↔ GInv g := by
  simp [GInv]

lemma mismatch_ok {g : Game} {key : PyKey} {g2 : Game} (hg : GInv g)
    (hstop : g.stop = none) (h : mismatch_step g key = .ok g2) :
    GInv g2 ∧ g2.stop = none := by
  obtain ⟨hq, hle, _, hsp⟩ := hg
  have hpos := hsp hstop
  unfold mismatch_step at h
  by_cases hlt : g.incorrect + g.position < g.quote.text.length
  · rw [if_pos hlt] at h
    split at h
    · have := ok_inj h
      subst this
      exact ⟨⟨hq, by simp; omega, by simp [hstop], by simp [hstop]; omega⟩, by simp [hstop]⟩
    · exact Except.noConfusion h
  · rw [if_neg hlt] at h
    have := ok_inj h
    subst this
    exact ⟨⟨hq, hle, by simp [hstop], fun _ => hpos⟩, hstop⟩

lemma mismatch_no_index (g : Game) (key : PyKey) :
    mismatch_step g key ≠ .error Exc.indexError := by
  unfold mismatch_step
  by_cases hlt : g.incorrect + g.position < g.quote.text.length
  · rw [if_pos hlt]
    split
    · intro hcon
      exact Except.noConfusion hcon
    · intro hcon
      exact Exc.noConfusion (Except.error.inj hcon)
  · rw [if_neg hlt]
    intro hcon
    exact Except.noConfusion hcon

lemma finish_ok (env : Env) (g : Game) (hq : g.quote.text ≠ [])
    (hpos : g.position ≤ (g.quote.text.length : Int))
    (hstop : g.stop = none) (hinc : g.incorrect = 0) :
    GInv (finish_check env g) ∧
    ((finish_check env g).stop ≠ none →
      (finish_check env g).position = (finish_check env g).quote.text.length ∧
      (finish_check env g).incorrect = 0) := by
  unfold finish_check
  by_cases hfin : g.position = (g.quote.text.length : Int)
  · rw [if_pos hfin]
    refine ⟨⟨hq, by simp [hinc]; omega, by simp [hinc], by simp⟩, ?_⟩
    intro _
    simp [hfin, hinc]
  · rw [if_neg hfin]
    refine ⟨⟨hq, by omega, by simp [hstop], fun _ => by omega⟩, fun hn => absurd hstop hn⟩

lemma correct_ok (env : Env) (g : Game) (c : Char) (hq : g.quote.text ≠ [])
    (hpos : g.position < (g.quote.text.length : Int))
    (hstop : g.stop = none) (hinc : g.incorrect = 0) :
    GInv (correct_step env g c) ∧
    ((correct_step env g c).stop ≠ none →
      (correct_step env g c).position = (correct_step env g c).quote.text.length ∧
      (correct_step env g c).incorrect = 0) := by
  unfold correct_step
  by_cases hc : c = ' ' ∨ c = '\n'
  · rw [if_pos hc]
    exact finish_ok env _ hq (by simp; omega) hstop hinc
  · rw [if_neg hc]
    exact finish_ok env _ hq (by simp; omega) hstop hinc

lemma check_ok {env : Env} {g : Game} {key : PyKey} {g2 : Game} (hg : GInv g)
    (hstop : g.stop = none) (h : check_key env g key = .ok g2) :
    GInv g2 ∧ (g2.stop ≠ none → g2.position = g2.quote.text.length ∧ g2.incorrect = 0) := by
  unfold check_key at h
  by_cases hinc : g.incorrect = 0
  · rw [if_pos hinc] at h
    have hpos := hg.2.2.2 hstop
    cases hc : py_index g.quote.text g.position with
    | none =>
      rw [hc] at h
      exact Except.noConfusion h
    | some c =>
      rw [hc] at h
      replace h : (if key = PyKey.str [c] then pure (correct_step env g c)
          else mismatch_step g key) = Except.ok g2 := h
      by_cases hk : key = PyKey.str [c]
      · rw [if_pos hk] at h
        have := ok_inj h
        subst this
        exact correct_ok env g c hg.1 hpos hstop hinc
      · rw [if_neg hk] at h
        obtain ⟨hg2, hs2⟩ := mismatch_ok hg hstop h
        exact ⟨hg2, fun hne => absurd hs2 hne⟩
  · rw [if_neg hinc] at h
    obtain ⟨hg2, hs2⟩ := mismatch_ok hg hstop h
    exact ⟨hg2, fun hne => absurd hs2 hne⟩

lemma get?_isSome_of_lt {s : List Char} {n : Nat} (h : n < s.length) :
    ∃ c, s.get? n = some c := by
  cases hg : s.get? n with
  | none =>
    rw [List.get?_eq_none] at hg
    omega
  | some c => exact ⟨c, rfl⟩

lemma py_index_some {s : List Char} {p : Int} (h0 : 0 ≤ p) (h1 : p < (s.length : Int)) :
    ∃ c, py_index s p = some c := by
  unfold py_index
  rw [if_pos h0]
  exact get?_isSome_of_lt (by omega)

lemma check_no_index (env : Env) (g : Game) (key : PyKey) (hg : GInv g)
    (hstop : g.stop = none) (hpos0 : 0 ≤ g.position) :
    check_key env g key ≠ .error Exc.indexError := by
  unfold check_key
  by_cases hinc : g.incorrect = 0
  · rw [if_pos hinc]
    have hpos := hg.2.2.2 hstop
    cases hc : py_index g.quote.text g.position with
    | none =>
      obtain ⟨c, hcc⟩ := py_index_some hpos0 hpos
      rw [hc] at hcc
      exact absurd hcc (by simp)
    | some c =>
      show ¬(if key = PyKey.str [c] then pure (correct_step env g c)
          else mismatch_step g key) = Except.error Exc.indexError
      by_cases hk : key = PyKey.str [c]
      · rw [if_pos hk]
        intro hcon
        exact Except.noConfusion hcon
      · rw [if_neg hk]
        exact mismatch_no_index g key
  · rw [if_neg hinc]
    exact mismatch_no_index g key

lemma try_again_props (env : Env) (g : Game) (hg : GInv g) :
    GInv (try_again_reset env g) ∧ (try_again_reset env g).stop = none := by
  unfold try_again_reset
  by_cases hstop : g.stop = none
  · rw [if_neg (by simp [hstop])]
    exact ⟨hg, hstop⟩
  · rw [if_pos (by simpa using hstop), reset_zero]
    exact ⟨GInv_of_fresh _ hg.1 rfl rfl rfl, rfl⟩

lemma start_clock_props (env : Env) (g : Game) (hg : GInv g) (hstop : g.stop = none) :
    GInv (start_clock env g) ∧ (start_clock env g).stop = none := by
  unfold start_clock
  by_cases hstart : g.start = none
  · rw [if_pos hstart]
    exact ⟨(GInv_set_start g _).mpr hg, by simpa using hstop⟩
  · rw [if_neg hstart]
    exact ⟨hg, hstop⟩

lemma ordinary_ok {env : Env} {g : Game} {key : PyKey} {g2 : Game} (hg : GInv g)
    (h : ordinary_step env g key = .ok g2) :
    GInv g2 ∧ (g2.stop ≠ none → g2.position = g2.quote.text.length ∧ g2.incorrect = 0) := by
  unfold ordinary_step at h
  obtain ⟨hg1, hs1⟩ := try_again_props env g hg
  obtain ⟨hg2, hs2⟩ := start_clock_props env _ hg1 hs1
  exact check_ok hg2 hs2 h

lemma try_again_pos (env : Env) (g : Game) (hp : 0 ≤ g.position) :
    0 ≤ (try_again_reset env g).position := by
  unfold try_again_reset
  split
  · rw [reset_zero]
  · exact hp

lemma start_clock_pos (env : Env) (g : Game) (hp : 0 ≤ g.position) :
    0 ≤ (start_clock env g).position := by
  unfold start_clock
  split
  · exact hp
  · exact hp

lemma ordinary_no_index (env : Env) (g : Game) (key : PyKey) (hg : GInv g)
    (hpos0 : 0 ≤ g.position) :
    ordinary_step env g key ≠ .error Exc.indexError := by
  unfold ordinary_step
  obtain ⟨hg1, hs1⟩ := try_again_props env g hg
  obtain ⟨hg2, hs2⟩ := start_clock_props env _ hg1 hs1
  exact check_no_index env _ _ hg2 hs2
    (start_clock_pos env _ (try_again_pos env g hpos0))

lemma GInv_handle {env : Env} {g : Game} {key : PyKey} {g2 : Game}
    (h1 : env.nextQuote.text ≠ []) (h2 : env.prevQuote.text ≠ [])
    (hg : GInv g) (h : handle_key env g key = .ok g2) :
    GInv g2 ∧ (g.stop = none → g2.stop ≠ none →
      g2.position = g2.quote.text.length ∧ g2.incorrect = 0) := by
  rcases handle_key_shape env g key with hs | hs | hs | hs | hs | hs | hs | hs
  · rw [hs] at h
    exact Except.noConfusion h
  · rw [hs] at h
    exact Except.noConfusion h
  · rw [hs] at h
    have := Except.ok.inj h
    subst this
    exact ⟨hg, fun hn hnn => absurd hn hnn⟩
  · rw [hs] at h
    have := Except.ok.inj h
    subst this
    exact ⟨GInv_reset env g 1 h1 h2 hg.1, fun _ hnn => absurd (reset_stop env g 1) hnn⟩
  · rw [hs] at h
    have := Except.ok.inj h
    subst this
    exact ⟨GInv_reset env g (-1) h1 h2 hg.1, fun _ hnn => absurd (reset_stop env g (-1)) hnn⟩
  · rw [hs] at h
    have := Except.ok.inj h
    subst this
    exact ⟨GInv_reset env g 0 h1 h2 hg.1, fun _ hnn => absurd (reset_stop env g 0) hnn⟩
  · rw [hs] at h
    have := Except.ok.inj h
    subst this
    refine ⟨GInv_backspace g hg, fun hn hnn => ?_⟩
    rw [backspace_stop] at hnn
    exact absurd hn hnn
  · rw [hs] at h
    obtain ⟨hg2, hf⟩ := ordinary_ok hg h
    exact ⟨hg2, fun _ => hf⟩

lemma handle_no_index (env : Env) (g : Game) (key : PyKey) (hg : GInv g)
    (hpos0 : 0 ≤ g.position) :
    handle_key env g key ≠ .error Exc.indexError := by
  rcases handle_key_shape env g key with hs | hs | hs | hs | hs | hs | hs | hs
  · rw [hs]
    simp
  · rw [hs]
    simp
  all_goals rw [hs]
  · simp
  · simp
  · simp
  · simp
  · simp
  · exact ordinary_no_index env g key hg hpos0

lemma GInv_run {env : Env} (h1 : env.nextQuote.text ≠ []) (h2 : env.prevQuote.text ≠ []) :
    ∀ (ks : List PyKey) (g g2 : Game), GInv g → run_keys env g ks = .ok g2 → GInv g2 := by
  intro ks
  induction ks with
  | nil =>
    intro g g2 hg h
    have := ok_inj (by simpa [run_keys] using h)
    subst this
    exact hg
  | cons k ks ih =>
    intro g g2 hg h
    rw [run_keys] at h
    cases hk : handle_key env g k with
    | ok g1 =>
      rw [hk] at h
      simp only [Except.bind] at h
      exact ih g1 g2 (GInv_handle h1 h2 hg hk).1 h
    | error e =>
      rw [hk] at h
      simp only [Except.bind] at h
      exact Except.noConfusion h

/-! ## Dispatch lemmas for specific keys -/

lemma single_ne_list (c : Char) (s : List Char) (hs : s.length ≠ 1) : [c] ≠ s := by
  intro h
  have h3 := congrArg List.length h
  simp at h3
  exact hs h3.symm

lemma replicate_space_ne_list (m : Nat) (s : List Char) (hs : s.head? ≠ some ' ') :
    List.replicate (m + 1) ' ' ≠ s := by
  intro h
  have h3 := congrArg List.head? h
  rw [List.replicate_succ] at h3
  simp at h3
  exact hs h3.symm

lemma handle_key_typing (env : Env) (g : Game) (key : PyKey)
    (hstart : g.start ≠ none) (hstop : g.stop = none)
    (h1 : key ≠ PyKey.str KEY_RESIZE) :
    handle_key env g key = handle_key_rest env g key := by
  unfold handle_key
  rw [if_neg h1, if_neg (by simp [hstart, hstop])]

lemma handle_key_of_plain (env : Env) (g : Game) (key : PyKey)
    (h1 : key ≠ PyKey.str KEY_RESIZE) (h2 : key ≠ PyKey.str [' '])
    (h3 : key ≠ PyKey.str KEY_LEFT) (h4 : key ≠ PyKey.str KEY_RIGHT)
    (h5 : is_escape key = pure false) :
    handle_key env g key = handle_key_rest env g key := by
  unfold handle_key
  rw [if_neg h1]
  split
  · rw [if_neg (by tauto), h5, bind_pure_bool, if_neg (by simp)]
  · rfl

lemma handle_key_backspace (env : Env) (g : Game) (key : PyKey)
    (hk : key = PyKey.str [BS] ∨ key = PyKey.str [DEL] ∨ key = PyKey.str KEY_BACKSPACE) :
    handle_key env g key = .ok (backspace_step g) := by
  rcases hk with hk | hk | hk <;> subst hk
  · rw [handle_key_of_plain env g _ (by decide) (by decide) (by decide) (by decide)
      (show is_escape (PyKey.str [BS]) = pure false from rfl)]
    rfl
  · rw [handle_key_of_plain env g _ (by decide) (by decide) (by decide) (by decide)
      (show is_escape (PyKey.str [DEL]) = pure false from rfl)]
    rfl
  · rw [handle_key_of_plain env g _ (by decide) (by decide) (by decide) (by decide)
      (show is_escape (PyKey.str KEY_BACKSPACE) = pure false from rfl)]
    rfl

lemma handle_key_escape_typing (env : Env) (g : Game)
    (hstart : g.start ≠ none) (hstop : g.stop = none) :
    handle_key env g (PyKey.str [ESC]) = .ok (reset env g 0) := by
  rw [handle_key_typing env g _ hstart hstop (by decide)]
  unfold handle_key_rest
  rw [show is_escape (PyKey.str [ESC]) = pure true from rfl, bind_pure_bool, if_pos rfl]
  rfl

lemma handle_key_escape_browse (env : Env) (g : Game)
    (hb : g.start = none ∨ g.stop ≠ none) :
    handle_key env g (PyKey.str [ESC]) = .error Exc.keyboardInterrupt := by
  unfold handle_key
  rw [if_neg (by decide)]
  rw [if_pos (show g.start = none ∨ (g.start ≠ none ∧ g.stop ≠ none) from ?_)]
  · rw [if_neg (by decide)]
    rw [show is_escape (PyKey.str [ESC]) = pure true from rfl, bind_pure_bool, if_pos rfl]
    rfl
  · rcases hb with h | h
    · exact Or.inl h
    · by_cases hs : g.start = none
      · exact Or.inl hs
      · exact Or.inr ⟨hs, h⟩

lemma handle_key_drop (env : Env) (g : Game) (c : Char)
    (hstart : g.start ≠ none) (hstop : g.stop = none)
    (hinc : g.incorrect ≠ 0) (hfull : g.position + g.incorrect = g.quote.text.length)
    (hesc : c ≠ ESC) (hbs : c ≠ BS) (hdel : c ≠ DEL) :
    handle_key env g (PyKey.str [c]) = .ok g := by
  rw [handle_key_typing env g _ hstart hstop
    (by simp; exact single_ne_list c _ (by decide))]
  unfold handle_key_rest
  rw [show is_escape (PyKey.str [c]) = pure (decide (c = ESC)) from rfl, bind_pure_bool,
    if_neg (by simp [hesc])]
  rw [show is_backspace (PyKey.str [c]) = pure (decide (c = BS ∨ c = DEL)) from rfl,
    bind_pure_bool, if_neg (by simp [hbs, hdel])]
  unfold ordinary_step
  rw [show try_again_reset env g = g from by
    unfold try_again_reset; rw [if_neg (by simp [hstop])]]
  rw [show start_clock env g = g from by
    unfold start_clock; rw [if_neg hstart]]
  unfold check_key
  rw [if_neg hinc]
  unfold mismatch_step
  rw [if_neg (by omega)]
  rfl

lemma is_escape_spaces (m : Nat) :
    is_escape (PyKey.str (List.replicate (m + 1) ' ')) = pure false := by
  cases m with
  | zero => rfl
  | succ m2 => rfl

lemma is_backspace_spaces (m : Nat) :
    is_backspace (PyKey.str (List.replicate (m + 1) ' ')) = pure false := by
  cases m with
  | zero => rfl
  | succ m2 =>
    show pure (decide (List.replicate (m2 + 1 + 1) ' ' = KEY_BACKSPACE)) = pure false
    rw [decide_eq_false (replicate_space_ne_list (m2 + 1) _ (by decide))]

lemma handle_key_tab_equiv (env : Env) (g : Game) (n : Nat)
    (hstart : g.start ≠ none) (hstop : g.stop = none)
    (htab : g.tab_spaces = some n) (hn : 0 < n) :
    handle_key env g (PyKey.str ['\t']) =
      handle_key env g (PyKey.str (List.replicate n ' ')) := by
  obtain ⟨m, rfl⟩ : ∃ m, n = m + 1 := ⟨n - 1, by omega⟩
  have hid1 : try_again_reset env g = g := by
    unfold try_again_reset; rw [if_neg (by simp [hstop])]
  have hid2 : start_clock env g = g := by
    unfold start_clock; rw [if_neg hstart]
  have hnorm1 : normalize_key g.tab_spaces (PyKey.str ['\t']) =
      PyKey.str (List.replicate (m + 1) ' ') := by
    unfold normalize_key
    rw [if_neg (by simp), htab]
    simp
  have hnorm2 : normalize_key g.tab_spaces (PyKey.str (List.replicate (m + 1) ' ')) =
      PyKey.str (List.replicate (m + 1) ' ') := by
    unfold normalize_key
    rw [if_neg (by simp), htab]
    show (if List.replicate (m + 1) ' ' = ['\t'] then
        PyKey.str (List.replicate (m + 1) ' ')
      else PyKey.str (List.replicate (m + 1) ' ')) = PyKey.str (List.replicate (m + 1) ' ')
    rw [ite_self]
  rw [handle_key_typing env g _ hstart hstop (by simp; exact single_ne_list _ _ (by decide))]
  rw [handle_key_typing env g _ hstart hstop
    (by simp; exact replicate_space_ne_list m _ (by decide))]
  unfold handle_key_rest
  rw [show is_escape (PyKey.str ['\t']) = pure false from rfl, bind_pure_bool,
    if_neg (by simp)]
  rw [show is_backspace (PyKey.str ['\t']) = pure false from rfl, bind_pure_bool,
    if_neg (by simp)]
  rw [is_escape_spaces m, bind_pure_bool, if_neg (by simp)]
  rw [is_backspace_spaces m, bind_pure_bool, if_neg (by simp)]
  unfold ordinary_step
  rw [hid1, hid2, hnorm1, hnorm2]

/-! ## Sample data for witnesses and counterexamples -/

/-- A sample environment: clock 7, nonempty neighbouring quotes. -/
def env0 : Env :=
  { now := 7, nextQuote := { text := "ok go".toList },
    prevQuote := { text := "on we go".toList } }

/-- The state after typing the quote "ab" to completion: finished, with
the typed word still in the edit buffer. -/
def g_fin : Game :=
  { quote := { text := "ab".toList }, position := 2, incorrect := 0,
    total_incorrect := 0, start := some 7, stop := some 7, edit := ['a', 'b'],
    tab_spaces := none }

/-- A mid-race state: typed "a" of "ab" correctly. -/
def g_mid : Game :=
  { quote := { text := "ab".toList }, position := 1, incorrect := 0,
    total_incorrect := 0, start := some 7, stop := none, edit := ['a'],
    tab_spaces := none }

/-! ## Claims about the session state machine -/

/-- C2, counterexample: type the quote "ab" to completion (stop becomes
set with position = 2), then press backspace.  The backspace branch runs
before the finished-race check, so position drops to 1 while stop stays
set — refuting the claimed invariant that stop set implies
position = len(quote.text). -/
theorem C2_counterexample :
    run_keys env0 (init { text := "ab".toList } none)
        [PyKey.str ['a'], PyKey.str ['b'], PyKey.str [BS]] =
      .ok { quote := { text := "ab".toList }, position := 1, incorrect := 0,
            total_incorrect := 0, start := some 7, stop := some 7, edit := ['a'],
            tab_spaces := none } ∧
    (some 7 : Option Nat) ≠ none ∧ 1 ≠ ("ab".toList).length :=
  ⟨rfl, by decide, by decide⟩

/-- C2, amended: along every keystroke run from a fresh session on a
nonempty quote, position + incorrect ≤ len(quote.text) always holds, and
stop set implies incorrect = 0 (but only position ≤ len: a backspace in
the Finished state decrements position while stop stays set).  Position
equals len exactly when stop is freshly set, and an ordinary wrong
keystroke arriving while typing with the quote fully covered
(position + incorrect = len, incorrect > 0) is dropped with no state
change. -/
theorem C2_session_invariant (env : Env) (q : Quote) (tab : Option Nat)
    (hq : q.text ≠ []) (h1 : env.nextQuote.text ≠ []) (h2 : env.prevQuote.text ≠ []) :
    ∀ ks g2, run_keys env (init q tab) ks = .ok g2 →
      (g2.position + g2.incorrect ≤ g2.quote.text.length ∧
        (g2.stop ≠ none → g2.incorrect = 0 ∧ g2.position ≤ g2.quote.text.length)) ∧
      (∀ k g3, g2.stop = none → handle_key env g2 k = .ok g3 → g3.stop ≠ none →
        g3.position = g3.quote.text.length ∧ g3.incorrect = 0) ∧
      (∀ c, g2.start ≠ none → g2.stop = none → 0 < g2.incorrect →
        g2.position + g2.incorrect = g2.quote.text.length →
        c ≠ ESC → c ≠ BS → c ≠ DEL →
        handle_key env g2 (PyKey.str [c]) = .ok g2) := by
  intro ks g2 hrun
  have hg2 : GInv g2 := GInv_run h1 h2 ks (init q tab) g2 (GInv_init q tab hq) hrun
  refine ⟨⟨hg2.2.1, fun hs => ⟨hg2.2.2.1 hs, by have := hg2.2.1; omega⟩⟩, ?_, ?_⟩
  · intro k g3 hs hk hs3
    exact (GInv_handle h1 h2 hg2 hk).2 hs hs3
  · intro c hstart hstop hinc hfull hesc hbs hdel
    exact handle_key_drop env g2 c hstart hstop (by omega) hfull hesc hbs hdel

/-- Witness for C2: one correct keystroke on the fresh quote "ab"
preserves the invariant. -/
theorem C2_session_invariant_witness :
    (("ab".toList : List Char) ≠ [] ∧
      run_keys env0 (init { text := "ab".toList } none) [PyKey.str ['a']] = .ok g_mid) ∧
    g_mid.position + g_mid.incorrect ≤ g_mid.quote.text.length := by
  have hrun : run_keys env0 (init { text := "ab".toList } none) [PyKey.str ['a']] =
      .ok g_mid := rfl
  refine ⟨⟨by decide, hrun⟩, ?_⟩
  exact ((C2_session_invariant env0 { text := "ab".toList } none (by decide)
    (by decide) (by decide)) [PyKey.str ['a']] g_mid hrun).1.1

/-- C5: a backspace keystroke (BS, DEL, or the named KEY_BACKSPACE), in
every session state, decrements the incorrect run if one is pending, else
rewinds one correct position if the edit buffer is nonempty, else does
nothing; the last edit-buffer character is dropped in the first two
cases, and total_incorrect never changes. -/
theorem C5_backspace (env : Env) (g : Game) (key : PyKey)
    (hk : key = PyKey.str [BS] ∨ key = PyKey.str [DEL] ∨ key = PyKey.str KEY_BACKSPACE) :
    handle_key env g key =
      .ok (if 0 < g.incorrect then
             { g with incorrect := g.incorrect - 1, edit := g.edit.dropLast }
           else if g.edit ≠ [] then
             { g with position := g.position - 1, edit := g.edit.dropLast }
           else g) ∧
    (if 0 < g.incorrect then
        { g with incorrect := g.incorrect - 1, edit := g.edit.dropLast }
      else if g.edit ≠ [] then
        { g with position := g.position - 1, edit := g.edit.dropLast }
      else g).total_incorrect = g.total_incorrect := by
  constructor
  · rw [handle_key_backspace env g key hk]
    unfold backspace_step
    by_cases hi : g.incorrect ≠ 0
    · rw [if_pos hi, if_pos (show 0 < g.incorrect by omega)]
    · have hi0 : g.incorrect = 0 := by simpa using hi
      rw [if_neg hi, if_neg (show ¬0 < g.incorrect by omega)]
  · split
    · rfl
    · split <;> rfl

/-- Witness for C5 on a mid-race state with an empty incorrect run. -/
theorem C5_backspace_witness :
    handle_key env0 g_mid (PyKey.str [BS]) =
      .ok { g_mid with position := 0, edit := [] } ∧
    ({ g_mid with position := 0, edit := [] } : Game).total_incorrect =
      g_mid.total_incorrect := by
  have h := C5_backspace env0 g_mid (PyKey.str [BS]) (Or.inl rfl)
  constructor
  · rw [h.1]
    rfl
  · rfl

/-- C6, counterexample: in the Finished state (stop set) the session is
in browse mode, so escape raises KeyboardInterrupt (quit) instead of
resetting the session as the claim asserts. -/
theorem C6_counterexample :
    g_fin.stop ≠ none ∧
    handle_key env0 g_fin (PyKey.str [ESC]) = .error Exc.keyboardInterrupt ∧
    (Except.error Exc.keyboardInterrupt : Except Exc Game) ≠
      .ok (reset env0 g_fin 0) := by
  refine ⟨by decide, rfl, ?_⟩
  intro h
  exact Except.noConfusion h

/-- C6, amended: escape during Typing (start set, stop unset) resets the
session in place — counters, buffer and timestamps cleared, quote and tab
configuration unchanged — while escape in NotStarted OR Finished (browse
mode) means quit and raises KeyboardInterrupt to the caller. -/
theorem C6_escape (env : Env) (g : Game) :
    (g.start ≠ none → g.stop = none →
      handle_key env g (PyKey.str [ESC]) =
        .ok { g with start := none, stop := none, position := 0, incorrect := 0,
                     total_incorrect := 0, edit := [] }) ∧
    (g.start = none ∨ g.stop ≠ none →
      handle_key env g (PyKey.str [ESC]) = .error Exc.keyboardInterrupt) := by
  constructor
  · intro hstart hstop
    rw [handle_key_escape_typing env g hstart hstop, reset_zero]
  · intro hb
    exact handle_key_escape_browse env g hb

/-- Witness for C6 on a mid-race state and on a fresh state. -/
theorem C6_escape_witness :
    handle_key env0 g_mid (PyKey.str [ESC]) =
      .ok { g_mid with start := none, stop := none, position := 0, incorrect := 0,
                       total_incorrect := 0, edit := [] } ∧
    handle_key env0 (init { text := "ab".toList } none) (PyKey.str [ESC]) =
      .error Exc.keyboardInterrupt :=
  ⟨(C6_escape env0 g_mid).1 (by decide) rfl,
   (C6_escape env0 (init { text := "ab".toList } none)).2 (Or.inl rfl)⟩

/-- C7: the tab half of the claim holds — with tab_spaces = n configured
(n > 0), a tab keystroke behaves exactly as the n-space string it is
normalized to before the comparison.  The enter half does not: the int
curses.KEY_ENTER crashes with TypeError inside Screen.is_escape (len() of
an int) before line 522's normalization can run, and a string key never
equals the int KEY_ENTER, so the enter-to-newline normalization is dead
code.  The theorem exhibits both facts. -/
theorem C7_key_normalization (env : Env) (g : Game) (n : Nat)
    (hstart : g.start ≠ none) (hstop : g.stop = none)
    (htab : g.tab_spaces = some n) (hn : 0 < n) :
    handle_key env g (PyKey.int KEY_ENTER) = .error Exc.typeError ∧
    handle_key env g (PyKey.str ['\t']) =
      handle_key env g (PyKey.str (List.replicate n ' ')) :=
  ⟨handle_key_int env g KEY_ENTER,
   handle_key_tab_equiv env g n hstart hstop htab hn⟩

/-- Witness for C7 on a mid-race state with tab_spaces = 4. -/
theorem C7_key_normalization_witness :
    handle_key env0 { g_mid with tab_spaces := some 4 } (PyKey.int KEY_ENTER) =
      .error Exc.typeError ∧
    handle_key env0 { g_mid with tab_spaces := some 4 } (PyKey.str ['\t']) =
      handle_key env0 { g_mid with tab_spaces := some 4 }
        (PyKey.str (List.replicate 4 ' ')) :=
  C7_key_normalization env0 { g_mid with tab_spaces := some 4 } 4
    (by decide) rfl rfl (by decide)

/-- C10, counterexample: the comparison read is NOT always in bounds.
From a fresh session on the nonempty quote "ab": type 'a'; a "KEY_LEFT"
during typing is not intercepted (the arrow handling is inside the
browse-mode branch) and registers as one mismatch while appending all
eight of its characters to the edit buffer; one backspace clears the
incorrect run, and each further backspace then decrements position, down
to -3; the next ordinary keystroke evaluates quote.text[-3] on a
two-character string, which raises IndexError (position -3 is below
-len). -/
theorem C10_counterexample :
    (("ab".toList : List Char) ≠ []) ∧
    run_keys env0 (init { text := "ab".toList } none)
        [PyKey.str ['a'], PyKey.str KEY_LEFT, PyKey.str [BS], PyKey.str [BS],
         PyKey.str [BS], PyKey.str [BS], PyKey.str [BS], PyKey.str ['z']] =
      .error Exc.indexError :=
  ⟨by decide, rfl⟩

/-- C10, amended: starting from a fresh session on a nonempty quote (with
nonempty neighbouring quotes), every reachable state keeps
position < len(quote.text) while stop is unset (so the comparison is
never reached with position at or past the end; position reaches len
only as stop is set, and a Finished session is reset before the
comparison), and from any reachable state with NONNEGATIVE position the
next keystroke cannot raise IndexError.  The in-bounds guarantee fails
only from below: backspaces after multi-character mismatch keys can
drive position negative, and below -len the read raises IndexError, as
the counterexample shows. -/
theorem C10_index_safety (env : Env) (q : Quote) (tab : Option Nat)
    (hq : q.text ≠ []) (h1 : env.nextQuote.text ≠ []) (h2 : env.prevQuote.text ≠ []) :
    ∀ ks g2, run_keys env (init q tab) ks = .ok g2 →
      (g2.stop = none → g2.position < (g2.quote.text.length : Int)) ∧
      (g2.stop ≠ none → g2.incorrect = 0 ∧ g2.position ≤ (g2.quote.text.length : Int)) ∧
      (0 ≤ g2.position → ∀ k, handle_key env g2 k ≠ .error Exc.indexError) := by
  intro ks g2 hrun
  have hg2 : GInv g2 := GInv_run h1 h2 ks (init q tab) g2 (GInv_init q tab hq) hrun
  refine ⟨hg2.2.2.2, fun hs => ⟨hg2.2.2.1 hs, ?_⟩,
    fun hp k => handle_no_index env g2 k hg2 hp⟩
  have h5 := hg2.2.1
  have h6 := hg2.2.2.1 hs
  omega

/-- Witness for C10: after one correct keystroke on "ab" the position is
nonnegative and the next keystroke cannot raise IndexError. -/
theorem C10_index_safety_witness :
    (("ab".toList : List Char) ≠ [] ∧
      run_keys env0 (init { text := "ab".toList } none) [PyKey.str ['a']] = .ok g_mid) ∧
    g_mid.position < (g_mid.quote.text.length : Int) ∧
    (0 ≤ g_mid.position ∧
      handle_key env0 g_mid (PyKey.str ['z']) ≠ .error Exc.indexError) := by
  have hrun : run_keys env0 (init { text := "ab".toList } none) [PyKey.str ['a']] =
      .ok g_mid := rfl
  have h := (C10_index_safety env0 { text := "ab".toList } none (by decide) (by decide)
    (by decide)) [PyKey.str ['a']] g_mid hrun
  exact ⟨⟨by decide, hrun⟩, h.1 rfl, by decide, h.2.2 (by decide) (PyKey.str ['z'])⟩

/-! ## Claims about the metrics -/

/-- C8: accuracy is 0 before the session starts; once started (on a
nonempty quote, as the data model guarantees) it is
len(quote.text) / (len(quote.text) + total_incorrect), lies in (0, 1],
and equals 1 exactly when total_incorrect = 0. -/
theorem C8_accuracy (g : Game) (hq : g.quote.text ≠ []) :
    (g.start = none → accuracy g = 0) ∧
    (g.start ≠ none →
      accuracy g = (g.quote.text.length : Rat) /
        ((g.quote.text.length : Rat) + (g.total_incorrect : Rat)) ∧
      0 < accuracy g ∧ accuracy g ≤ 1 ∧
      (accuracy g = 1 ↔ g.total_incorrect = 0)) := by
  constructor
  · intro h
    simp [accuracy, h]
  · intro h
    have hlen : 0 < g.quote.text.length := List.length_pos.mpr hq
    have hL : (0 : Rat) < (g.quote.text.length : Rat) := by exact_mod_cast hlen
    have hT : (0 : Rat) ≤ (g.total_incorrect : Rat) := by positivity
    have hden : (0 : Rat) < (g.quote.text.length : Rat) + (g.total_incorrect : Rat) := by
      linarith
    have hacc : accuracy g = (g.quote.text.length : Rat) /
        ((g.quote.text.length : Rat) + (g.total_incorrect : Rat)) := by
      simp [accuracy, h]
    refine ⟨hacc, ?_, ?_, ?_⟩
    · rw [hacc]
      exact div_pos hL hden
    · rw [hacc, div_le_one hden]
      linarith
    · rw [hacc]
      constructor
      · intro he
        rw [div_eq_one_iff_eq hden.ne'] at he
        have hT0 : (g.total_incorrect : Rat) = 0 := by linarith
        exact_mod_cast hT0
      · intro he
        rw [he]
        simp [hL.ne']

/-- A session state on the quote "abc" with one past error. -/
def g_acc : Game :=
  { quote := { text := "abc".toList }, position := 1, incorrect := 1,
    total_incorrect := 1, start := some 3, stop := none, edit := ['a'],
    tab_spaces := none }

/-- Witness for C8: one error on a three-character quote gives
accuracy 3/4. -/
theorem C8_accuracy_witness :
    g_acc.quote.text ≠ [] ∧ accuracy g_acc = 3 / 4 := by
  have h := (C8_accuracy g_acc (by decide)).2 (by decide)
  refine ⟨by decide, ?_⟩
  rw [h.1, show g_acc.quote.text.length = 3 from rfl,
    show g_acc.total_incorrect = 1 from rfl]
  norm_num

/-- C9: wpm(elapsed) is 0 before the session starts and otherwise
min((60 · position / 5) / elapsed, 999); cps(elapsed) is 0 before the
session starts and otherwise min(position / elapsed, 99).  Python float
arithmetic is modelled exactly over the rationals. -/
theorem C9_speed_metrics (g : Game) (e : Rat) :
    (g.start = none → wpm g e = 0 ∧ cps g e = 0) ∧
    (g.start ≠ none →
      wpm g e = min ((60 * (g.position : Rat) / 5) / e) 999 ∧
      cps g e = min ((g.position : Rat) / e) 99) := by
  constructor
  · intro h
    simp [wpm, cps, h]
  · intro h
    simp [wpm, cps, h]

/-- A started session state with ten correct characters typed. -/
def g_speed : Game :=
  { quote := { text := "ab cd ef gh".toList }, position := 10, incorrect := 0,
    total_incorrect := 0, start := some 0, stop := none, edit := [],
    tab_spaces := none }

/-- Witness for C9: ten characters in two seconds is 60 wpm and 5 cps. -/
theorem C9_speed_metrics_witness :
    wpm g_speed 2 = 60 ∧ cps g_speed 2 = 5 := by
  have h := (C9_speed_metrics g_speed 2).2 (by decide)
  constructor
  · rw [h.1, show g_speed.position = 10 from rfl]
    norm_num [min_def]
  · rw [h.2, show g_speed.position = 10 from rfl]
    norm_num [min_def]

end Wpm
